import Mathlib

/-!
Verification of the wallet-pool and safety-control subsystem of the
strutbot repository against its natural-language specification.

The JavaScript sources are shallowly embedded: BN/BigInt arithmetic is
modelled with `Nat`/`Int` (BN and BigInt division truncate toward zero,
which is `Int.tdiv`; all BN values on the modelled paths are
non-negative), JavaScript `Set`/`Map` objects are modelled as
insertion-ordered lists, floating-point ratio/threshold values coming
from configuration are modelled as exact rationals, and every network or
randomness effect is supplied by an explicit environment record.
-/

namespace CB

/-- Configuration fields of `ConfigManager` read by `CircuitBreaker`
(src/market/MarketDataProvider.js). `maxFailureRate` and
`emergencyStopLoss` are fractional thresholds, modelled as rationals. -/
structure Config where
  enableCircuitBreaker : Bool
  maxConsecutiveFailures : Nat
  failureRateWindow : Nat
  maxFailureRate : ℚ
  emergencyStopLoss : ℚ

/-- Mutable fields of the `CircuitBreaker` class. `initialSinkBalance`
is a BigInt in the source, hence `Int`. -/
structure State where
  consecutiveFailures : Nat
  recentTrades : List Bool
  initialSinkBalance : Int
  checkCounter : Nat
deriving DecidableEq

/-- The `CircuitBreaker` constructor: counters zero, empty window,
zero BigInt baseline. -/
def initState : State := ⟨0, [], 0, 0⟩

/-- Constant `SINK_BALANCE_CHECK_INTERVAL` from src/constants.js. -/
def SINK_BALANCE_CHECK_INTERVAL : Nat := 5

/-- `CircuitBreaker.recordTradeResult(success)`: push the outcome,
shift the window down to `failureRateWindow` entries, reset the
consecutive-failure streak on success and extend it on failure. -/
def recordTradeResult (cfg : Config) (s : State) (success : Bool) : State :=
  if cfg.enableCircuitBreaker = false then s else
  let rt := s.recentTrades ++ [success]
  let rt := if cfg.failureRateWindow < rt.length then rt.tail else rt
  { s with recentTrades := rt,
           consecutiveFailures := if success then 0 else s.consecutiveFailures + 1 }

/-- Result record `{tripped, reason}` returned by each check.  The
interpolated parts of the reason strings are elided. -/
structure CheckResult where
  tripped : Bool
  reason : String
deriving DecidableEq

/-- `CircuitBreaker.checkConsecutiveFailures()`. -/
def checkConsecutiveFailures (cfg : Config) (s : State) : CheckResult :=
  if cfg.maxConsecutiveFailures ≤ s.consecutiveFailures then
    ⟨true, "Circuit Breaker: consecutive failures"⟩
  else ⟨false, ""⟩

/-- `CircuitBreaker.checkFailureRate()`: evaluated only once the
sliding window is full; the rate is `failures / recentTrades.length`. -/
def checkFailureRate (cfg : Config) (s : State) : CheckResult :=
  if cfg.failureRateWindow ≤ s.recentTrades.length then
    let failures := (s.recentTrades.filter (fun r => r = false)).length
    let failureRate : ℚ := (failures : ℚ) / (s.recentTrades.length : ℚ)
    if cfg.maxFailureRate < failureRate then
      ⟨true, "Circuit Breaker: failure rate"⟩
    else ⟨false, ""⟩
  else ⟨false, ""⟩

/-- `CircuitBreaker.checkEmergencyStopLoss(connection, sinkKeypair)`.
`sinkPresent` models the truthiness of `sinkKeypair` and
`currentBalance` the result of `connection.getBalance`.  The BigInt
basis-point computation `(lossAmount * 10000n) / initialSinkBalance`
truncates toward zero, hence `Int.tdiv`; the final
`Number(lossPercent) / 10000` conversion is exact for the magnitudes
involved (the numerator is an integer of magnitude at most 10000 on
any reachable state) and is modelled as rational division. -/
def checkEmergencyStopLoss (cfg : Config) (s : State) (sinkPresent : Bool)
    (currentBalance : Int) : CheckResult × State :=
  let s₁ := { s with checkCounter := s.checkCounter + 1 }
  if sinkPresent = true ∧ 0 < s.initialSinkBalance ∧
      s₁.checkCounter % SINK_BALANCE_CHECK_INTERVAL = 0 then
    let lossAmount := s.initialSinkBalance - currentBalance
    if s.initialSinkBalance ≤ 0 then (⟨false, ""⟩, s₁) else
    let lossPercent : Int := Int.tdiv (lossAmount * 10000) s.initialSinkBalance
    let lossDecimal : ℚ := (lossPercent : ℚ) / 10000
    if cfg.emergencyStopLoss < lossDecimal then
      (⟨true, "Circuit Breaker: loss from initial balance"⟩, s₁)
    else (⟨false, ""⟩, s₁)
  else (⟨false, ""⟩, s₁)

/-- `CircuitBreaker.checkCircuitBreakers(connection, sinkKeypair)`:
runs the three checks in order, returning the first tripped result. -/
def checkCircuitBreakers (cfg : Config) (s : State) (sinkPresent : Bool)
    (currentBalance : Int) : CheckResult × State :=
  if cfg.enableCircuitBreaker = false then (⟨false, ""⟩, s) else
  let r1 := checkConsecutiveFailures cfg s
  if r1.tripped then (r1, s) else
  let r2 := checkFailureRate cfg s
  if r2.tripped then (r2, s) else
  checkEmergencyStopLoss cfg s sinkPresent currentBalance

end CB

/-- Concrete configuration used for the C1 streak scenario:
breaker enabled, `maxConsecutiveFailures = 3`, a 100-trade window (so
the failure-rate condition is inert on short runs) and a 20% stop
loss. -/
def cfgC1 : CB.Config := ⟨true, 3, 100, (1 : ℚ)/2, (1 : ℚ)/5⟩

/-- Fold a list of trade outcomes through `recordTradeResult` starting
from the constructor state. -/
def runTrades (l : List Bool) : CB.State :=
  l.foldl (fun s b => CB.recordTradeResult cfgC1 s b) CB.initState

/-- Trip decision of `checkCircuitBreakers` after a given outcome
sequence, with no sink keypair configured. -/
def trippedAfter (l : List Bool) : Bool :=
  (CB.checkCircuitBreakers cfgC1 (runTrades l) false 0).1.tripped

namespace WM

/-- Constant `MIN_SOL_BUFFER_LAMPORTS_BN` from src/constants.js. -/
def MIN_SOL_BUFFER_LAMPORTS : Nat := 5000

/-- Three-valued result of `WalletManager.verifyTransaction`: the
transaction status or balance-delta check confirms the transfer,
contradicts it, or is indeterminate. -/
inductive VerifyResult
  | success
  | failed
  | unknown
deriving DecidableEq

/-- Outcome of one send/confirm attempt inside the retry loop of
`fundSingleWallet`.  `sendError` covers any throw before or during
`sendTransaction` (caught by the attempt-level catch);
`confirmTimeout v` is a rejection of `confirmTransaction` whose message
contains "not confirmed", after which `verifyTransaction` returned
`v`; `confirmOtherError` is any other confirmation rejection, which
the source rethrows into the attempt-level catch. -/
inductive AttemptOutcome
  | sendError
  | confirmed
  | confirmTimeout (v : VerifyResult)
  | confirmOtherError
deriving DecidableEq

/-- Effect environment for one `fundSingleWallet` call.
`balanceResult` is the `connection.getBalance` result for the wallet
(`none` models a throw, which escapes to the outer catch); `parts` is
the random 1..4 tranche count; `partFactor p` is the random factor
`Math.floor((0.6 + random * 0.8) * 1000)` drawn for part `p`;
`outcome p r` is the network outcome of attempt `r` for part `p`. -/
structure FundEnv where
  balanceResult : Option Nat
  parts : Nat
  partFactor : Nat → Nat
  outcome : Nat → Nat → AttemptOutcome

/-- The wallet-pool state fields touched by funding: the `funded` set
and the `fundingLocks` set of `WalletManager`, both JavaScript `Set`s
of strings. -/
structure PoolState where
  funded : List String
  fundingLocks : List String
deriving DecidableEq

/-- JavaScript `Set.add`: a no-op when the element is present. -/
def setAdd (l : List String) (x : String) : List String :=
  if x ∈ l then l else x :: l

/-- JavaScript `Set.delete`: removes the element. -/
def setDel (l : List String) (x : String) : List String :=
  l.filter (fun y => y ≠ x)

/-- An attempt is counted successful (`txSuccess = true`) exactly when
confirmation resolved, or confirmation timed out and
`verifyTransaction` returned `'success'`. -/
def attemptSuccess : AttemptOutcome → Bool
  | .confirmed => true
  | .confirmTimeout v => v = VerifyResult.success
  | _ => false

/-- The retry loop `for (retry = 0; retry <= maxRetries && !txSuccess;
retry++)` with `maxRetries = 2`: `r` is the current attempt index and
the fuel argument counts the attempts left. -/
def retryAttempts (env : FundEnv) (p : Nat) : Nat → Nat → Bool
  | _, 0 => false
  | r, left + 1 =>
    if attemptSuccess (env.outcome p r) then true
    else retryAttempts env p (r + 1) left

/-- `WalletManager.calculateFundingPart(remaining, remainingParts)`
with the drawn random `factor`. -/
def calculateFundingPart (factor remaining remainingParts : Nat) : Nat :=
  let basePart := remaining * factor / 1000 / remainingParts
  min (max basePart MIN_SOL_BUFFER_LAMPORTS) remaining

/-- The tranche loop `for (p = 0; p < parts && remaining >
MIN_SOL_BUFFER; p++)` of `fundSingleWallet`: each part draws a capped
amount, runs the retry loop, and on success subtracts the amount from
`remaining` and records the delivered tranche.  Returns the delivered
tranche amounts in order and the final `remaining`. -/
def partsGo (env : FundEnv) : Nat → Nat → Nat → List Nat × Nat
  | 0, _, remaining => ([], remaining)
  | left + 1, p, remaining =>
    if MIN_SOL_BUFFER_LAMPORTS < remaining then
      let cappedPart := calculateFundingPart (env.partFactor p) remaining (env.parts - p)
      if retryAttempts env p 0 3 then
        let (ts, rem) := partsGo env left (p + 1) (remaining - cappedPart)
        (cappedPart :: ts, rem)
      else partsGo env left (p + 1) remaining
    else ([], remaining)

/-- The synchronous guard-and-acquire prefix of `fundSingleWallet` (no
`await` occurs before it): return early when the wallet is already
funded or a funding lock for it is held, otherwise add the lock. -/
def acquireFundingLock (s : PoolState) (pubkey : String) : Bool × PoolState :=
  if pubkey ∈ s.funded ∨ ("funding_" ++ pubkey) ∈ s.fundingLocks then (false, s)
  else (true, { s with fundingLocks := setAdd s.fundingLocks ("funding_" ++ pubkey) })

/-- Result of a `fundSingleWallet` call: the final pool state and the
list of tranche amounts counted delivered. -/
structure FundResult where
  state : PoolState
  transfers : List Nat
deriving DecidableEq

/-- `WalletManager.fundSingleWallet(wallet)` for a wallet with the
given pubkey and configured `fundAmount` (BN lamports).  The body is
wrapped in try/catch/finally: a `getBalance` throw reaches the outer
catch (wallet not marked funded), every other throwing operation is
caught inside the tranche loop, and the `finally` always deletes the
funding lock. -/
def fundSingleWallet (fundAmount : Nat) (env : FundEnv) (s : PoolState)
    (pubkey : String) : FundResult :=
  let lockKey := "funding_" ++ pubkey
  match acquireFundingLock s pubkey with
  | (false, _) => ⟨s, []⟩
  | (true, s₁) =>
    let afterBody : PoolState × List Nat :=
      match env.balanceResult with
      | none => (s₁, [])
      | some balance =>
        let threshold := fundAmount * 8 / 10
        if threshold ≤ balance then
          ({ s₁ with funded := setAdd s₁.funded pubkey }, [])
        else
          let remaining := fundAmount - balance
          let (transfers, _) := partsGo env env.parts 0 remaining
          ({ s₁ with funded := setAdd s₁.funded pubkey }, transfers)
    ⟨{ afterBody.1 with fundingLocks := setDel afterBody.1.fundingLocks lockKey },
      afterBody.2⟩

end WM

/-- Concrete effect environment used in funding witnesses: balance 0,
one tranche, and every attempt failing at send. -/
def envC2 : WM.FundEnv := ⟨some 0, 1, fun _ => 600, fun _ _ => .sendError⟩

namespace BWC

/-- Constant `PRIORITY_FEE_MICRO_LAMPORTS` from src/constants.js. -/
def PRIORITY_FEE_MICRO_LAMPORTS : Nat := 10000

/-- Configuration fields of `ConfigManager` read by
`BurnerWalletManager`.  The two request-ratio fields are the source's
`bwcBurnerRatio` and `bwcEmergencyBurnerRatio`, floating-point
fractions modelled as rationals (renamed here because of their
suffix). -/
structure Config where
  bwcEnabled : Bool
  bwcMode : String
  bwcBurnerLifetimeTxs : Nat
  enableBurnerSeasoning : Bool
  burnerSeasoningMinTxs : Nat
  bwcBurnerShare : ℚ
  bwcEmergencyBurnerShare : ℚ

/-- Ordered association list modelling a JavaScript `Map` from pubkey
strings to numbers: iteration follows insertion order, `set` of an
existing key keeps its position. -/
abbrev MapN := List (String × Nat)

/-- `Map.get(k)` returning an option. -/
def mfind (m : MapN) (k : String) : Option Nat :=
  (m.find? (fun p => p.1 = k)).map (fun p => p.2)

/-- The idiom `map.get(k) || 0` used throughout the source. -/
def mgetD (m : MapN) (k : String) : Nat :=
  (mfind m k).getD 0

/-- `Map.set(k, v)`: replace the entry for an existing key in place
(JavaScript map keys are unique, so replacing the first occurrence is
the map semantics), or append a new entry. -/
def mset : MapN → String → Nat → MapN
  | [], k, v => [(k, v)]
  | p :: ps, k, v => if p.1 = k then (k, v) :: ps else p :: mset ps k v

/-- `Map.delete(k)`. -/
def mdel (m : MapN) (k : String) : MapN :=
  m.filter (fun p => p.1 ≠ k)

/-- The burner-tracking state of `BurnerWalletManager`:
`burnerWallets` maps pubkey to the record's creation timestamp (the
only record field the modelled operations read), the three counter
maps, and the `pendingDisposal` set. -/
structure State where
  burnerWallets : MapN
  burnerCooldowns : MapN
  burnerTradeCount : MapN
  burnerSeasoningCount : MapN
  pendingDisposal : List String

/-- `BurnerWalletManager.getBurnerCooldown(txCount)` given the random
base cooldown draw (30000–60000 ms in the source); the float
expression `Math.floor(base * (1 + txCount * 0.1))` is modelled on
exact tenths. -/
def getBurnerCooldown (base txCount : Nat) : Nat :=
  base * (10 + txCount) / 10

/-- Expiry horizon (24h) used by `cleanupBurners`. -/
def EXPIRY_TIME : Nat := 24 * 60 * 60 * 1000

/-- `BurnerWalletManager.cleanupBurners(now)`: drop wallets older than
24h from every tracking structure, drop cooldown entries older than
one hour, and cap stored trade counts at 100 and seasoning counts at
20. -/
def cleanupBurners (s : State) (now : Nat) : State :=
  let expired := (s.burnerWallets.filter
    (fun p => (EXPIRY_TIME : Int) < (now : Int) - (p.2 : Int))).map (fun p => p.1)
  { burnerWallets := s.burnerWallets.filter
      (fun p => ¬ (EXPIRY_TIME : Int) < (now : Int) - (p.2 : Int)),
    burnerCooldowns := (s.burnerCooldowns.filter (fun p => p.1 ∉ expired)).filter
      (fun p => ¬ (3600000 : Int) < (now : Int) - (p.2 : Int)),
    burnerTradeCount := (s.burnerTradeCount.filter (fun p => p.1 ∉ expired)).map
      (fun p => if 100 < p.2 then (p.1, 100) else p),
    burnerSeasoningCount := (s.burnerSeasoningCount.filter (fun p => p.1 ∉ expired)).map
      (fun p => if 20 < p.2 then (p.1, 20) else p),
    pendingDisposal := s.pendingDisposal.filter (fun pk => pk ∉ expired) }

/-- The request cap `Math.ceil(count * share)` applied to the
availability result. -/
def requestCap (count : Nat) (share : ℚ) : Nat :=
  (⌈(count : ℚ) * share⌉).toNat

/-- Entry pushed onto `available` by `getAvailableBurners` (the spread
wallet-data fields other than the pubkey are elided). -/
structure AvailEntry where
  pubkey : String
  txCount : Nat
  seasoningCount : Nat
  isSeasoned : Bool
deriving DecidableEq

/-- Randomness environment for a `getAvailableBurners` call:
`baseCooldown pk` is the random 30000–60000 draw made inside
`getBurnerCooldown` for the wallet checked. -/
structure Env where
  baseCooldown : String → Nat

/-- `BurnerWalletManager.getAvailableBurners(count, emergencyMode)`.
Runs `cleanupBurners`, collects wallets that are not pending disposal,
whose cooldown has elapsed, whose lifetime transaction count is below
`bwcBurnerLifetimeTxs`, and (when seasoning is enabled) that meet the
seasoning requirement; then caps the result at
`min(ceil(count * share), count)`.  The source calls `shuffleArray`
on `available` here but discards its return value, so the collected
order is returned unchanged.  Returns the list and the cleaned
state. -/
def getAvailableBurners (cfg : Config) (env : Env) (s : State) (now count : Nat)
    (emergencyMode : Bool) : List AvailEntry × State :=
  if cfg.bwcEnabled = false ∨ cfg.bwcMode = "disabled" then ([], s) else
  let s₁ := cleanupBurners s now
  let available := s₁.burnerWallets.filterMap (fun p =>
    if p.1 ∈ s₁.pendingDisposal then none else
    let lastUsed := mgetD s₁.burnerCooldowns p.1
    let txCount := mgetD s₁.burnerTradeCount p.1
    let cooldown := getBurnerCooldown (env.baseCooldown p.1) txCount
    let seasoningCount := mgetD s₁.burnerSeasoningCount p.1
    let isSeasoned := (¬ cfg.enableBurnerSeasoning = true) ∨
      cfg.burnerSeasoningMinTxs ≤ seasoningCount
    if (cooldown : Int) ≤ (now : Int) - (lastUsed : Int) ∧
        txCount < cfg.bwcBurnerLifetimeTxs ∧ isSeasoned then
      some ⟨p.1, txCount, seasoningCount, decide isSeasoned⟩
    else none)
  let share := if emergencyMode then cfg.bwcEmergencyBurnerShare else cfg.bwcBurnerShare
  let targetCount := requestCap count share
  (available.take (min targetCount count), s₁)

/-- `BurnerWalletManager.scheduleBurnerDisposal(pubkey)`: add the
wallet to `pendingDisposal` when it is tracked and not already
pending.  The delayed `disposeBurnerWallet` timer is asynchronous and
modelled separately. -/
def scheduleBurnerDisposal (s : State) (pk : String) : State :=
  if (mfind s.burnerWallets pk).isNone ∨ pk ∈ s.pendingDisposal then s
  else { s with pendingDisposal := s.pendingDisposal ++ [pk] }

/-- `BurnerWalletManager.markBurnerSeasoningProgress(pubkey, txCount)`
(the statistics update is elided). -/
def markBurnerSeasoningProgress (cfg : Config) (s : State) (pk : String)
    (txCount : Nat) : State :=
  if cfg.enableBurnerSeasoning = false then s else
  let cur := mgetD s.burnerSeasoningCount pk
  { s with burnerSeasoningCount := mset s.burnerSeasoningCount pk (cur + txCount) }

/-- `BurnerWalletManager.markBurnerUsed(pubkey, txCount)` at wall time
`now`: bump the lifetime count, stamp the cooldown, track seasoning
progress, and schedule disposal when the new count reaches
`bwcBurnerLifetimeTxs`. -/
def markBurnerUsed (cfg : Config) (s : State) (pk : String) (txCount now : Nat) :
    State :=
  if (mfind s.burnerWallets pk).isNone then s else
  let currentCount := mgetD s.burnerTradeCount pk
  let newCount := currentCount + txCount
  let s₁ := { s with burnerTradeCount := mset s.burnerTradeCount pk newCount,
                     burnerCooldowns := mset s.burnerCooldowns pk now }
  let s₂ := if cfg.enableBurnerSeasoning then
      markBurnerSeasoningProgress cfg s₁ pk txCount
    else s₁
  if cfg.bwcBurnerLifetimeTxs ≤ newCount then scheduleBurnerDisposal s₂ pk else s₂

/-- Swap of two list positions (used by the Fisher-Yates model);
out-of-range indices leave the list unchanged, matching array
semantics for the in-range indices the shuffle generates. -/
def listSwap (l : List String) (i j : Nat) : List String :=
  (l.set i (l.getD j "")).set j (l.getD i "")

/-- Downward Fisher-Yates walk of
`BurnerWalletManager.shuffleArray(array)`: at index `i` it swaps with
`rand i = Math.floor(Math.random() * (i + 1))`.  The source builds and
returns a shuffled copy, leaving its argument untouched. -/
def shuffleGo (rand : Nat → Nat) : List String → Nat → List String
  | l, 0 => l
  | l, i + 1 => shuffleGo rand (listSwap l (i + 1) (rand (i + 1))) i

/-- `BurnerWalletManager.shuffleArray(array)`. -/
def shuffleArray (rand : Nat → Nat) (l : List String) : List String :=
  shuffleGo rand l (l.length - 1)

end BWC

namespace BWC

/-- Outcome of the single confirmation wait inside
`BurnerWalletManager.fundBurnerWallet`; the source catches the
rejection and proceeds either way. -/
inductive ConfirmOutcome
  | confirmed
  | timedOut
deriving DecidableEq

/-- Effect environment for one `fundBurnerWallet` call.
`relayerBalances` lists the `getBalance` results for the relayer
candidates in order (`none` models a throw, caught per candidate and
skipped); `fallbackBalance` is the re-queried balance of the first
relayer when no candidate had a sufficient balance (`none` models a
throw reaching the outer catch); `sendOk` tells whether
`sendTransaction` resolved; `confirmOutcome` is the confirmation
result. -/
structure FundEnv where
  relayerBalances : List (Option Nat)
  fallbackBalance : Option Nat
  sendOk : Bool
  confirmOutcome : ConfirmOutcome

/-- `BurnerWalletManager.fundBurnerWallet(walletData)` with the
configured `bwcBurnerFundAmount` (BN lamports).  Candidate relayers
are scanned for one whose balance covers amount plus estimated fee;
otherwise the first relayer is used after balance floor checks.  The
transfer is then sent; the confirmation wait is wrapped in a catch
that only logs, after which the function returns `true` — the
transfer-amount adjustment does not influence the returned status and
is therefore elided beyond its zero check. -/
def fundBurnerWallet (fundAmount : Nat) (env : FundEnv) : Bool :=
  if env.relayerBalances.isEmpty then false else
  let estimatedFee := PRIORITY_FEE_MICRO_LAMPORTS * 25000 / 1000000
  let totalRequired := fundAmount + estimatedFee
  let found := env.relayerBalances.findSome? (fun b? =>
    match b? with
    | some b => if totalRequired ≤ b then some b else none
    | none => none)
  let settled : Option Nat :=
    match found with
    | some b => some b
    | none =>
      match env.fallbackBalance with
      | none => none
      | some b =>
        if b < totalRequired then
          if b = 0 then none
          else if b < 10000000 then none
          else some b
        else some b
  match settled with
  | none => false
  | some b =>
    if b < totalRequired ∧ b ≤ estimatedFee then false
    else if env.sendOk = false then false
    else true

/-- The spec's balance-delta verification verdicts for an
ambiguous-outcome transfer. -/
inductive DeltaVerification
  | confirmedDelta
  | contradicted
  | indeterminate
deriving DecidableEq

/-- Modelled from the spec (the repository implements no verification
in `fundBurnerWallet`): a transfer is counted delivered only when its
confirmation succeeded, or when confirmation timed out and the
balance-delta verification confirmed it; contradicted or indeterminate
outcomes are retried rather than counted delivered. -/
def verifiedDeliveryPerSpec (c : ConfirmOutcome) (v : DeltaVerification) : Bool :=
  match c with
  | .confirmed => true
  | .timedOut =>
    match v with
    | .confirmedDelta => true
    | _ => false

end BWC

/-- The lifetime invariant of claim C4: every tracked burner wallet
whose stored transaction count has reached `bwcBurnerLifetimeTxs` is in
the pending-disposal set. -/
def LifetimeInv (cfg : BWC.Config) (s : BWC.State) : Prop :=
  ∀ pk, (BWC.mfind s.burnerWallets pk).isSome = true →
    cfg.bwcBurnerLifetimeTxs ≤ BWC.mgetD s.burnerTradeCount pk →
    pk ∈ s.pendingDisposal

/-- Concrete burner configuration for witnesses: BWC enabled in
hybrid mode, lifetime cap 5, seasoning disabled, both request shares
1. -/
def cfgBwc : BWC.Config := ⟨true, "hybrid", 5, false, 3, 1, 1⟩

/-- Concrete availability environment: every base cooldown draw is
30000 ms. -/
def envB : BWC.Env := ⟨fun _ => 30000⟩

/-- Concrete burner state: two fresh wallets `A` and `B` created at
time 0, nothing pending. -/
def s7 : BWC.State := ⟨[("A", 0), ("B", 0)], [], [], [], []⟩

/-- Concrete burner state with wallet `A` scheduled for disposal. -/
def s10 : BWC.State := ⟨[("A", 0), ("B", 0)], [], [], [], ["A"]⟩

namespace RB

/-- Configuration fields read by `WalletRebalancer`: the SOL config
values already converted to lamports (`Int`, matching BN), plus the
`enableRebalancing` flag and whether relayer wallets exist. -/
structure Config where
  enableRebalancing : Bool
  relayersPresent : Bool
  minWalletBalanceLamports : Int
  targetWalletBalanceLamports : Int
  dustThresholdLamports : Int

/-- Effect environment for one `rebalanceWallets` call: `p2pOk pos`
is the success of the `pos`-th P2P transfer attempt (submit plus
confirm), `consOk i` the success of the `i`-th consolidation attempt,
and `rand i` the `Math.random()` draw of the `i`-th consolidation
retention (in `[0,1)`). -/
structure Env where
  p2pOk : Nat → Bool
  consOk : Nat → Bool
  rand : Nat → ℚ

/-- A wallet-to-wallet lamport transfer. -/
structure Transfer where
  src : String
  dst : String
  amount : Int
deriving DecidableEq

/-- One pairing considered by the P2P loop: the needy wallet, the
current surplus donor, and their balances at pairing time. -/
structure Pairing where
  needy : String
  donor : String
  needyBalance : Int
  donorBalance : Int
deriving DecidableEq

/-- Insertion step for the stable sort modelling
`Array.prototype.sort` with a balance comparator. -/
def insertBy {α : Type} (le : α → α → Bool) (x : α) : List α → List α
  | [] => [x]
  | y :: ys => if le x y then x :: y :: ys else y :: insertBy le x ys

/-- Stable sort by the given comparator. -/
def sortBy {α : Type} (le : α → α → Bool) (l : List α) : List α :=
  l.foldr (insertBy le) []

/-- Result of one P2P loop iteration. -/
structure StepResult where
  master : List (String × Int)
  pairing : Option Pairing
  transfer : Option Transfer
  advance : Bool

/-- One iteration of the P2P loop of
`WalletRebalancer.rebalanceWallets` for the needy wallet at index
`nIdx` and the current donor at index `sIdx` of the shared balance
list.  A self-pairing `continue`s (no pairing, no dust check).
Otherwise the donor funds the full deficit only when its surplus
strictly exceeds it; the attempt succeeds when the network call
succeeds and the deficit is serialisable as an unsigned lamport amount
(a negative `neededAmount` would make `SystemProgram.transfer` throw
inside the try, which the source catches as a failed transfer);
afterwards the donor is advanced when its surplus has fallen below the
dust threshold. -/
def p2pStep (cfg : Config) (ok : Bool) (master : List (String × Int))
    (sIdx nIdx : Nat) : StepResult :=
  let needy := master.getD nIdx ("", 0)
  let donor := master.getD sIdx ("", 0)
  if donor.1 = needy.1 then ⟨master, none, none, false⟩
  else
    let neededAmount := cfg.targetWalletBalanceLamports - needy.2
    let availableSurplus := donor.2 - cfg.targetWalletBalanceLamports
    let success := neededAmount < availableSurplus ∧ 0 ≤ neededAmount ∧ ok = true
    let master' := if success then
        (master.set sIdx (donor.1, donor.2 - neededAmount)).set nIdx
          (needy.1, needy.2 + neededAmount)
      else master
    let donorAfter := (master'.getD sIdx ("", 0)).2
    ⟨master', some ⟨needy.1, donor.1, needy.2, donor.2⟩,
      if success then some ⟨donor.1, needy.1, neededAmount⟩ else none,
      donorAfter - cfg.targetWalletBalanceLamports < cfg.dustThresholdLamports⟩

/-- The P2P loop: one iteration per needy index, stopping when the
donor index runs off the end of the surplus list.  Returns the final
balance list, the pairings considered, and the successful transfers,
in order. -/
def p2pGo (cfg : Config) (env : Env) (surplusIdxs : List Nat) :
    List Nat → List (String × Int) → Nat → Nat →
      List (String × Int) × List Pairing × List Transfer
  | [], master, _, _ => (master, [], [])
  | nIdx :: rest, master, si, pos =>
    if surplusIdxs.length ≤ si then (master, [], [])
    else
      let st := p2pStep cfg (env.p2pOk pos) master (surplusIdxs.getD si 0) nIdx
      let si' := if st.advance then si + 1 else si
      let r := p2pGo cfg env surplusIdxs rest st.master si' (pos + 1)
      (r.1, st.pairing.toList ++ r.2.1, st.transfer.toList ++ r.2.2)

/-- `WalletRebalancer.consolidateSurplusToSink(surplusWallets)`
walking the entry list with the running index `i` used for the random
retention draw and the network outcome: the surplus above target is
transferred to the sink scaled by
`Math.floor((0.90 + random * 0.08) * 100) / 100`, skipping entries
whose surplus or transfer amount is at or below the dust threshold. -/
def consolidateGo (cfg : Config) (env : Env) (sink : String) :
    List (String × Int) → Nat → List Transfer
  | [], _ => []
  | (pk, bal) :: rest, i =>
    let surplus := bal - cfg.targetWalletBalanceLamports
    let txs :=
      if cfg.dustThresholdLamports < surplus then
        let k : Int := ⌊(90 : ℚ) + 8 * env.rand i⌋
        let transferAmount := Int.tdiv (surplus * k) 100
        if transferAmount < cfg.dustThresholdLamports then []
        else if env.consOk i then [⟨pk, sink, transferAmount⟩] else []
      else []
    txs ++ consolidateGo cfg env sink rest (i + 1)

/-- `WalletRebalancer.consolidateSurplusToSink`. -/
def consolidateSurplusToSink (cfg : Config) (env : Env) (sink : String)
    (entries : List (String × Int)) : List Transfer :=
  consolidateGo cfg env sink entries 0

/-- Result of `rebalanceWallets`: the balance snapshot after the P2P
phase, the pairings considered, and the two transfer lists. -/
structure Result where
  balancesAfterP2P : List (String × Int)
  pairings : List Pairing
  p2pTransfers : List Transfer
  consolidationTransfers : List Transfer
deriving DecidableEq

/-- `WalletRebalancer.rebalanceWallets()` over the fetched snapshot
`wallets` of (pubkey, balance) pairs.  Needy wallets (balance below
the minimum) are sorted ascending, surplus wallets (balance above
`target * 3 / 2`) descending; the P2P phase runs when both lists are
non-empty; wallets of the surplus list still above `target * 11 / 10`
are then consolidated to the sink when one is configured. -/
def rebalanceWallets (cfg : Config) (env : Env) (wallets : List (String × Int))
    (sinkPk : Option String) : Result :=
  if cfg.enableRebalancing = false ∨ cfg.relayersPresent = false then
    ⟨wallets, [], [], []⟩
  else if wallets.length < 2 then ⟨wallets, [], [], []⟩
  else
  let idxs := List.range wallets.length
  let needy := sortBy
    (fun i j => (wallets.getD i ("", 0)).2 ≤ (wallets.getD j ("", 0)).2)
    (idxs.filter (fun i => (wallets.getD i ("", 0)).2 < cfg.minWalletBalanceLamports))
  let surplus := sortBy
    (fun i j => (wallets.getD j ("", 0)).2 ≤ (wallets.getD i ("", 0)).2)
    (idxs.filter (fun i =>
      Int.tdiv (cfg.targetWalletBalanceLamports * 3) 2 < (wallets.getD i ("", 0)).2))
  let pr := if needy ≠ [] ∧ surplus ≠ [] then p2pGo cfg env surplus needy wallets 0 0
    else (wallets, [], [])
  let remainingSurplus := (surplus.filter (fun i =>
      Int.tdiv (cfg.targetWalletBalanceLamports * 11) 10 < (pr.1.getD i ("", 0)).2)).map
    (fun i => pr.1.getD i ("", 0))
  let cons := match sinkPk with
    | some sink => if remainingSurplus ≠ [] then
        consolidateSurplusToSink cfg env sink remainingSurplus else []
    | none => []
  ⟨pr.1, pr.2.1, pr.2.2, cons⟩

end RB

/-- Concrete rebalancer configuration: minimum 8, target 10, dust
threshold 1 lamport, rebalancing enabled with relayers present. -/
def cfg5 : RB.Config := ⟨true, true, 8, 10, 1⟩

/-- Concrete rebalancer environment: every transfer succeeds and
every random draw is 0. -/
def env5 : RB.Env := ⟨fun _ => true, fun _ => true, fun _ => 0⟩

/-- Snapshot refuting claim C5 as stated: needy wallet `N` with
balance 2 (deficit 8) and donor `D` with balance 16 (surplus 6). -/
def wallets5 : List (String × Int) := [("N", 2), ("D", 16)]

/-- Snapshot for the C5 witness: the donor surplus (20) strictly
exceeds the needy deficit (8), so a transfer of 8 occurs. -/
def wallets5b : List (String × Int) := [("N", 2), ("D", 30)]

/-- Claim C1: the circuit breaker trips if and only if one of its three
conditions holds, evaluated in the order consecutive-failures, then
failure-rate, then drawdown, the first tripped condition
short-circuiting the rest; the consecutive-failure streak resets on a
recorded success, so with `maxConsecutiveFailures = 3`, after the
sequence three failures / success the breaker is untripped, and the
second streak of failures trips only on its final (third) failure. -/
theorem claim_C1 :
    (∀ cfg s sink bal, cfg.enableCircuitBreaker = true →
      (((CB.checkCircuitBreakers cfg s sink bal).1.tripped = true ↔
          ((CB.checkConsecutiveFailures cfg s).tripped = true ∨
           (CB.checkFailureRate cfg s).tripped = true ∨
           (CB.checkEmergencyStopLoss cfg s sink bal).1.tripped = true))
       ∧ ((CB.checkConsecutiveFailures cfg s).tripped = true →
            (CB.checkCircuitBreakers cfg s sink bal).1 =
              CB.checkConsecutiveFailures cfg s)
       ∧ ((CB.checkConsecutiveFailures cfg s).tripped = false →
          (CB.checkFailureRate cfg s).tripped = true →
            (CB.checkCircuitBreakers cfg s sink bal).1 = CB.checkFailureRate cfg s)
       ∧ ((CB.checkConsecutiveFailures cfg s).tripped = false →
          (CB.checkFailureRate cfg s).tripped = false →
            CB.checkCircuitBreakers cfg s sink bal =
              CB.checkEmergencyStopLoss cfg s sink bal)))
  ∧ (∀ cfg s, cfg.enableCircuitBreaker = true →
      (CB.recordTradeResult cfg s true).consecutiveFailures = 0)
  ∧ trippedAfter [false, false, false, true] = false
  ∧ trippedAfter [false, false, false, true, false] = false
  ∧ trippedAfter [false, false, false, true, false, false] = false
  ∧ trippedAfter [false, false, false, true, false, false, false] = true := by
  refine ⟨?_, ?_, by decide, by decide, by decide, by decide⟩
  · intro cfg s sink bal h
    cases h1 : (CB.checkConsecutiveFailures cfg s).tripped
    · cases h2 : (CB.checkFailureRate cfg s).tripped
      · simp [CB.checkCircuitBreakers, h, h1, h2]
      · simp [CB.checkCircuitBreakers, h, h1, h2]
    · simp [CB.checkCircuitBreakers, h, h1]
  · intro cfg s h
    simp [CB.recordTradeResult, h]

/-- Witness for claim C1: at the concrete configuration, the breaker is
tripped after the seventh outcome of the scenario, obtained through the
trip-iff-some-condition direction of the main theorem. -/
theorem claim_C1_witness :
    (CB.checkCircuitBreakers cfgC1
       (runTrades [false, false, false, true, false, false, false]) false 0).1.tripped
      = true := by
  exact (claim_C1.1 cfgC1
    (runTrades [false, false, false, true, false, false, false]) false 0 rfl).1.mpr
    (Or.inl (by decide))

/-- Claim C8: `checkEmergencyStopLoss` increments a monotonically
increasing counter on every invocation, never modifies the baseline
balance (nor does `recordTradeResult`), is inert on invocations whose
counter value is not a multiple of `SINK_BALANCE_CHECK_INTERVAL`, and
on evaluated invocations the trip decision is exactly a comparison of
the integer basis-point loss `tdiv ((initial - current) * 10000)
initial` against the scaled threshold. -/
theorem claim_C8 : ∀ cfg s sink bal,
    ((CB.checkEmergencyStopLoss cfg s sink bal).2.checkCounter = s.checkCounter + 1)
  ∧ ((CB.checkEmergencyStopLoss cfg s sink bal).2.initialSinkBalance =
       s.initialSinkBalance)
  ∧ (∀ b, (CB.recordTradeResult cfg s b).initialSinkBalance = s.initialSinkBalance)
  ∧ ((s.checkCounter + 1) % CB.SINK_BALANCE_CHECK_INTERVAL ≠ 0 →
      (CB.checkEmergencyStopLoss cfg s sink bal).1.tripped = false)
  ∧ (sink = true → 0 < s.initialSinkBalance →
     (s.checkCounter + 1) % CB.SINK_BALANCE_CHECK_INTERVAL = 0 →
      ((CB.checkEmergencyStopLoss cfg s sink bal).1.tripped = true ↔
        10000 * cfg.emergencyStopLoss <
          ((Int.tdiv ((s.initialSinkBalance - bal) * 10000) s.initialSinkBalance : ℤ)
            : ℚ))) := by
  intro cfg s sink bal
  have hst : (CB.checkEmergencyStopLoss cfg s sink bal).2 =
      { s with checkCounter := s.checkCounter + 1 } := by
    simp only [CB.checkEmergencyStopLoss]
    split_ifs <;> rfl
  refine ⟨by rw [hst], by rw [hst], ?_, ?_, ?_⟩
  · intro b
    unfold CB.recordTradeResult
    split <;> rfl
  · intro hmod
    simp only [CB.checkEmergencyStopLoss]
    split_ifs with h1 h2 h3
    · rfl
    · exact absurd h1.2.2 hmod
    · rfl
    · rfl
  · intro hsink hpos hmod
    have hiff : (cfg.emergencyStopLoss <
        ((Int.tdiv ((s.initialSinkBalance - bal) * 10000) s.initialSinkBalance : ℤ)
          : ℚ) / 10000) ↔
        10000 * cfg.emergencyStopLoss <
          ((Int.tdiv ((s.initialSinkBalance - bal) * 10000) s.initialSinkBalance : ℤ)
            : ℚ) := by
      rw [lt_div_iff₀ (by norm_num : (0 : ℚ) < 10000), mul_comm]
    simp only [CB.checkEmergencyStopLoss]
    rw [if_pos ⟨hsink, hpos, hmod⟩, if_neg (not_le.mpr hpos)]
    split_ifs with hlt
    · simpa using hiff.mp hlt
    · have hno : ¬ 10000 * cfg.emergencyStopLoss <
          ((Int.tdiv ((s.initialSinkBalance - bal) * 10000) s.initialSinkBalance : ℤ)
            : ℚ) := fun hgt => hlt (hiff.mpr hgt)
      simpa using hno

/-- Witness for claim C8: on a concrete state with baseline 1000, a
current balance of 700 and a counter hitting the throttle interval, the
evaluated check trips (a 30% loss against a 20% threshold). -/
theorem claim_C8_witness :
    (CB.checkEmergencyStopLoss cfgC1 ⟨0, [], 1000, 4⟩ true 700).1.tripped = true := by
  have ht : Int.tdiv ((1000 - 700) * 10000) 1000 = (3000 : ℤ) := by decide
  exact ((claim_C8 cfgC1 ⟨0, [], 1000, 4⟩ true 700).2.2.2.2 rfl (by decide)
    (by decide)).mpr (by rw [ht]; norm_num [cfgC1])

/-- An element is always a member of the set after `setAdd`. -/
theorem mem_setAdd (l : List String) (x : String) : x ∈ WM.setAdd l x := by
  by_cases h : x ∈ l <;> simp [WM.setAdd, h]

/-- An element is never a member of the set after `setDel`. -/
theorem notMem_setDel (l : List String) (x : String) : x ∉ WM.setDel l x := by
  simp [WM.setDel]

/-- Claim C2: funding is mutually exclusive per wallet identity.  The
guard-and-acquire prefix of `fundSingleWallet` runs before any
suspension point; once one call has acquired the lock for an identity,
a second acquisition attempt for the same identity fails, and a
`fundSingleWallet` call that finds the lock held (or that fails to
acquire for any reason) returns with the state unchanged and no
transfer performed. -/
theorem claim_C2 :
    (∀ s pubkey, (WM.acquireFundingLock s pubkey).1 = true →
      (WM.acquireFundingLock (WM.acquireFundingLock s pubkey).2 pubkey).1 = false)
  ∧ (∀ fundAmount env s pubkey, ("funding_" ++ pubkey) ∈ s.fundingLocks →
      WM.fundSingleWallet fundAmount env s pubkey = ⟨s, []⟩)
  ∧ (∀ fundAmount env s pubkey, (WM.acquireFundingLock s pubkey).1 = false →
      WM.fundSingleWallet fundAmount env s pubkey = ⟨s, []⟩) := by
  refine ⟨?_, ?_, ?_⟩
  · intro s pubkey h
    by_cases h1 : pubkey ∈ s.funded ∨ ("funding_" ++ pubkey) ∈ s.fundingLocks
    · simp only [WM.acquireFundingLock, if_pos h1] at h
      exact absurd h (by simp)
    · have hacq : WM.acquireFundingLock s pubkey =
          (true, ⟨s.funded, WM.setAdd s.fundingLocks ("funding_" ++ pubkey)⟩) := by
        simp only [WM.acquireFundingLock, if_neg h1]
      rw [hacq]
      simp only [WM.acquireFundingLock]
      rw [if_pos (Or.inr (mem_setAdd _ _))]
  · intro fundAmount env s pubkey h
    unfold WM.fundSingleWallet
    have hA : WM.acquireFundingLock s pubkey = (false, s) := by
      unfold WM.acquireFundingLock
      rw [if_pos (Or.inr h)]
    rw [hA]
  · intro fundAmount env s pubkey h
    unfold WM.fundSingleWallet
    rcases hA : WM.acquireFundingLock s pubkey with ⟨b, s₁⟩
    rw [hA] at h
    cases b
    · rfl
    · simp at h

/-- Witness for claim C2: with the lock for wallet `w` held, a call
returns immediately with the state unchanged and no transfers; and the
second of two acquisitions for the same identity fails. -/
theorem claim_C2_witness :
    WM.fundSingleWallet 100 envC2 ⟨[], ["funding_w"]⟩ "w" = ⟨⟨[], ["funding_w"]⟩, []⟩
  ∧ (WM.acquireFundingLock ⟨[], []⟩ "w").1 = true
  ∧ (WM.acquireFundingLock (WM.acquireFundingLock ⟨[], []⟩ "w").2 "w").1 = false := by
  exact ⟨claim_C2.2.1 100 envC2 ⟨[], ["funding_w"]⟩ "w" (by decide), by decide,
    claim_C2.1 ⟨[], []⟩ "w" (by decide)⟩

/-- Claim C3: on every exit path of `fundSingleWallet` — success,
failure, or a thrown exception (modelled by `env.balanceResult = none`
and by failing attempt outcomes) — the funding-lock entry for the
wallet is absent immediately after the call returns, provided the call
itself was the one that acquired it (it was not already held by a
concurrent call when this call started). -/
theorem claim_C3 : ∀ fundAmount env s pubkey,
    ("funding_" ++ pubkey) ∉ s.fundingLocks →
    ("funding_" ++ pubkey) ∉
      (WM.fundSingleWallet fundAmount env s pubkey).state.fundingLocks := by
  intro fundAmount env s pubkey h
  unfold WM.fundSingleWallet
  rcases hA : WM.acquireFundingLock s pubkey with ⟨b, s₁⟩
  cases b
  · simpa using h
  · exact notMem_setDel _ _

/-- Witness for claim C3: a call that throws at `getBalance` (the
environment returns no balance) leaves no funding-lock entry behind. -/
theorem claim_C3_witness :
    ("funding_" ++ "w") ∉
      (WM.fundSingleWallet 100 ⟨none, 1, fun _ => 600, fun _ _ => .sendError⟩
        ⟨[], []⟩ "w").state.fundingLocks := by
  exact claim_C3 100 ⟨none, 1, fun _ => 600, fun _ _ => .sendError⟩ ⟨[], []⟩ "w"
    (by decide)

theorem mfind_mset_self (m : BWC.MapN) (k : String) (v : Nat) :
    BWC.mfind (BWC.mset m k v) k = some v := by
  induction m with
  | nil => simp [BWC.mset, BWC.mfind, List.find?]
  | cons p ps ih =>
    by_cases h : p.1 = k
    · simp [BWC.mset, h, BWC.mfind, List.find?]
    · simp only [BWC.mset, if_neg h]
      simp only [BWC.mfind] at ih ⊢
      rw [List.find?_cons_of_neg _ (by simpa using h)]
      exact ih

theorem mfind_mset_ne (m : BWC.MapN) (k q : String) (v : Nat) (hne : q ≠ k) :
    BWC.mfind (BWC.mset m k v) q = BWC.mfind m q := by
  induction m with
  | nil => simp [BWC.mset, BWC.mfind, List.find?, Ne.symm hne]
  | cons p ps ih =>
    by_cases h : p.1 = k
    · simp only [BWC.mset, if_pos h, BWC.mfind]
      rw [List.find?_cons_of_neg _ (by simpa using fun h2 => hne h2.symm),
        List.find?_cons_of_neg _ (by simp [h]; exact fun h2 => hne (h ▸ h2.symm))]
    · simp only [BWC.mset, if_neg h, BWC.mfind] at ih ⊢
      by_cases hq : p.1 = q
      · rw [List.find?_cons_of_pos _ (by simpa using hq),
          List.find?_cons_of_pos _ (by simpa using hq)]
      · rw [List.find?_cons_of_neg _ (by simpa using hq),
          List.find?_cons_of_neg _ (by simpa using hq)]
        exact ih

theorem mgetD_mset_self (m : BWC.MapN) (k : String) (v : Nat) :
    BWC.mgetD (BWC.mset m k v) k = v := by
  simp [BWC.mgetD, mfind_mset_self]

theorem mgetD_mset_ne (m : BWC.MapN) (k q : String) (v : Nat) (hne : q ≠ k) :
    BWC.mgetD (BWC.mset m k v) q = BWC.mgetD m q := by
  simp [BWC.mgetD, mfind_mset_ne m k q v hne]

theorem schedule_burnerWallets (s : BWC.State) (pk : String) :
    (BWC.scheduleBurnerDisposal s pk).burnerWallets = s.burnerWallets := by
  unfold BWC.scheduleBurnerDisposal
  split_ifs <;> rfl

theorem schedule_tradeCount (s : BWC.State) (pk : String) :
    (BWC.scheduleBurnerDisposal s pk).burnerTradeCount = s.burnerTradeCount := by
  unfold BWC.scheduleBurnerDisposal
  split_ifs <;> rfl

theorem schedule_pending_mono (s : BWC.State) (pk q : String)
    (h : q ∈ s.pendingDisposal) :
    q ∈ (BWC.scheduleBurnerDisposal s pk).pendingDisposal := by
  unfold BWC.scheduleBurnerDisposal
  split_ifs with hc
  · exact h
  · exact List.mem_append_left _ h

theorem schedule_pending_self (s : BWC.State) (pk : String)
    (h : (BWC.mfind s.burnerWallets pk).isSome = true) :
    pk ∈ (BWC.scheduleBurnerDisposal s pk).pendingDisposal := by
  unfold BWC.scheduleBurnerDisposal
  split_ifs with hc
  · rcases hc with hc | hc
    · rw [Option.isNone_iff_eq_none.mp hc] at h
      simp at h
    · exact hc
  · simp

theorem season_fields (cfg : BWC.Config) (s : BWC.State) (pk : String) (tx : Nat) :
    (BWC.markBurnerSeasoningProgress cfg s pk tx).burnerWallets = s.burnerWallets ∧
    (BWC.markBurnerSeasoningProgress cfg s pk tx).burnerTradeCount =
      s.burnerTradeCount ∧
    (BWC.markBurnerSeasoningProgress cfg s pk tx).pendingDisposal =
      s.pendingDisposal := by
  unfold BWC.markBurnerSeasoningProgress
  split_ifs <;> exact ⟨rfl, rfl, rfl⟩

theorem inv_step (cfg : BWC.Config) (s s' : BWC.State) (pk : String) (newCount : Nat)
    (hw : s'.burnerWallets = s.burnerWallets)
    (ht : s'.burnerTradeCount = BWC.mset s.burnerTradeCount pk newCount)
    (hp : s'.pendingDisposal = s.pendingDisposal)
    (hsome : (BWC.mfind s.burnerWallets pk).isSome = true)
    (hInv : LifetimeInv cfg s) :
    (cfg.bwcBurnerLifetimeTxs ≤ newCount →
       LifetimeInv cfg (BWC.scheduleBurnerDisposal s' pk)) ∧
    (newCount < cfg.bwcBurnerLifetimeTxs → LifetimeInv cfg s') := by
  constructor
  · intro hcap q hqw hqc
    by_cases hq : q = pk
    · subst hq
      exact schedule_pending_self s' q (by rw [hw]; exact hsome)
    · apply schedule_pending_mono
      rw [hp]
      apply hInv q
      · rw [schedule_burnerWallets, hw] at hqw
        exact hqw
      · rw [schedule_tradeCount, ht, mgetD_mset_ne _ _ _ _ hq] at hqc
        exact hqc
  · intro hcap q hqw hqc
    by_cases hq : q = pk
    · subst hq
      rw [ht, mgetD_mset_self] at hqc
      exact absurd hqc (not_le.mpr hcap)
    · rw [hp]
      apply hInv q
      · rw [hw] at hqw
        exact hqw
      · rw [ht, mgetD_mset_ne _ _ _ _ hq] at hqc
        exact hqc

theorem markUsed_preserves (cfg : BWC.Config) (s : BWC.State) (pk : String)
    (tx now : Nat) (hInv : LifetimeInv cfg s) :
    LifetimeInv cfg (BWC.markBurnerUsed cfg s pk tx now) := by
  by_cases h1 : (BWC.mfind s.burnerWallets pk).isNone = true
  · simp only [BWC.markBurnerUsed]
    rw [if_pos h1]
    exact hInv
  · have hsome : (BWC.mfind s.burnerWallets pk).isSome = true := by
      rcases hM : BWC.mfind s.burnerWallets pk with _ | v
      · exact absurd (by simp [hM]) h1
      · simp
    simp only [BWC.markBurnerUsed]
    rw [if_neg h1]
    by_cases hs : cfg.enableBurnerSeasoning = true
    · rw [if_pos hs]
      by_cases hcap : cfg.bwcBurnerLifetimeTxs ≤ BWC.mgetD s.burnerTradeCount pk + tx
      · rw [if_pos hcap]
        refine (inv_step cfg s _ pk _ ?_ ?_ ?_ hsome hInv).1 hcap
        · exact (season_fields _ _ _ _).1
        · exact (season_fields _ _ _ _).2.1
        · exact (season_fields _ _ _ _).2.2
      · rw [if_neg hcap]
        refine (inv_step cfg s _ pk _ ?_ ?_ ?_ hsome hInv).2 (not_le.mp hcap)
        · exact (season_fields _ _ _ _).1
        · exact (season_fields _ _ _ _).2.1
        · exact (season_fields _ _ _ _).2.2
    · rw [if_neg hs]
      by_cases hcap : cfg.bwcBurnerLifetimeTxs ≤ BWC.mgetD s.burnerTradeCount pk + tx
      · rw [if_pos hcap]
        refine (inv_step cfg s _ pk _ ?_ ?_ ?_ hsome hInv).1 hcap <;> rfl
      · rw [if_neg hcap]
        refine (inv_step cfg s _ pk _ ?_ ?_ ?_ hsome hInv).2 (not_le.mp hcap) <;> rfl

theorem avail_txCount_lt (cfg : BWC.Config) (env : BWC.Env) (s : BWC.State)
    (now count : Nat) (em : Bool) :
    ∀ e ∈ (BWC.getAvailableBurners cfg env s now count em).1,
      e.txCount < cfg.bwcBurnerLifetimeTxs := by
  intro e he
  simp only [BWC.getAvailableBurners] at he
  split_ifs at he with hdis
  · simp at he
  all_goals
    have he2 := List.take_subset _ _ he
  all_goals
    rcases List.mem_filterMap.mp he2 with ⟨p, hp, hf⟩
  all_goals
    split_ifs at hf with hpend hcond
  any_goals simp at hf
  all_goals
    cases hf
  all_goals
    exact hcond.2.1

theorem keys_nodup_val (l : BWC.MapN) (h : (l.map Prod.fst).Nodup) (k : String)
    (a b : Nat) (ha : (k, a) ∈ l) (hb : (k, b) ∈ l) : a = b := by
  induction l with
  | nil => simp at ha
  | cons p ps ih =>
    simp only [List.map_cons, List.nodup_cons] at h
    rcases List.mem_cons.mp ha with ha1 | ha1 <;> rcases List.mem_cons.mp hb with hb1 | hb1
    · exact (Prod.ext_iff.mp (ha1.trans hb1.symm)).2
    · exact absurd (List.mem_map_of_mem Prod.fst hb1)
        (by rw [← ha1] at h; simpa using h.1)
    · exact absurd (List.mem_map_of_mem Prod.fst ha1)
        (by rw [← hb1] at h; simpa using h.1)
    · exact ih h.2 ha1 hb1

theorem notin_avail_of_pending (cfg : BWC.Config) (env : BWC.Env) (s : BWC.State)
    (now count : Nat) (em : Bool) (pk : String)
    (hnd : (s.burnerWallets.map Prod.fst).Nodup)
    (hpend : pk ∈ s.pendingDisposal) :
    ∀ e ∈ (BWC.getAvailableBurners cfg env s now count em).1, e.pubkey ≠ pk := by
  intro e he
  simp only [BWC.getAvailableBurners] at he
  split_ifs at he with hdis
  · simp at he
  all_goals
    have he2 := List.take_subset _ _ he
  all_goals
    rcases List.mem_filterMap.mp he2 with ⟨p, hp, hf⟩
  all_goals
    split_ifs at hf with hpendE hcond
  any_goals simp at hf
  all_goals
    cases hf
  all_goals {
    intro heq
    have heq2 : p.1 = pk := heq
    apply hpendE
    simp only [BWC.cleanupBurners] at hp ⊢
    rw [List.mem_filter] at hp
    rcases hp with ⟨hpbw, hpcond⟩
    simp only [decide_eq_true_eq] at hpcond
    rw [List.mem_filter]
    refine ⟨by rw [heq2]; exact hpend, ?_⟩
    simp only [decide_eq_true_eq, List.mem_map, not_exists, not_and]
    intro q hqfil hqk
    rw [List.mem_filter] at hqfil
    rcases hqfil with ⟨hq1, hq2⟩
    simp only [decide_eq_true_eq] at hq2
    have hqbw : (p.1, q.2) ∈ s.burnerWallets := by
      rw [← hqk]
      exact hq1
    have hpbw2 : (p.1, p.2) ∈ s.burnerWallets := hpbw
    have hval : q.2 = p.2 := keys_nodup_val s.burnerWallets hnd p.1 q.2 p.2 hqbw hpbw2
    rw [hval] at hq2
    exact hpcond hq2 }

theorem attemptSuccess_false (o : WM.AttemptOutcome)
    (h1 : o ≠ WM.AttemptOutcome.confirmed)
    (h2 : o ≠ WM.AttemptOutcome.confirmTimeout WM.VerifyResult.success) :
    WM.attemptSuccess o = false := by
  cases o with
  | confirmed => exact absurd rfl h1
  | confirmTimeout v =>
    cases v with
    | success => exact absurd rfl h2
    | failed => rfl
    | unknown => rfl
  | sendError => rfl
  | confirmOtherError => rfl

theorem attemptSuccess_true_cases (o : WM.AttemptOutcome)
    (h : WM.attemptSuccess o = true) :
    o = WM.AttemptOutcome.confirmed ∨
      o = WM.AttemptOutcome.confirmTimeout WM.VerifyResult.success := by
  cases o with
  | confirmed => exact Or.inl rfl
  | confirmTimeout v =>
    cases v with
    | success => exact Or.inr rfl
    | failed => simp [WM.attemptSuccess] at h
    | unknown => simp [WM.attemptSuccess] at h
  | sendError => simp [WM.attemptSuccess] at h
  | confirmOtherError => simp [WM.attemptSuccess] at h

theorem retryAttempts_false (env : WM.FundEnv) (p : Nat)
    (hfail : ∀ r, WM.attemptSuccess (env.outcome p r) = false) :
    ∀ left r, WM.retryAttempts env p r left = false := by
  intro left
  induction left with
  | zero => intro r; rfl
  | succ n ih =>
    intro r
    simp only [WM.retryAttempts, hfail r]
    exact ih (r + 1)

theorem retryAttempts_exists (env : WM.FundEnv) (p : Nat) :
    ∀ left r, WM.retryAttempts env p r left = true →
      ∃ k, k < left ∧ WM.attemptSuccess (env.outcome p (r + k)) = true := by
  intro left
  induction left with
  | zero => intro r h; exact absurd h (by simp [WM.retryAttempts])
  | succ n ih =>
    intro r h
    by_cases hs : WM.attemptSuccess (env.outcome p r) = true
    · exact ⟨0, Nat.succ_pos n, by simpa using hs⟩
    · have hs' : WM.attemptSuccess (env.outcome p r) = false := by simpa using hs
      simp only [WM.retryAttempts] at h
      rw [if_neg (by simp [hs'])] at h
      rcases ih (r + 1) h with ⟨k, hk, hsk⟩
      exact ⟨k + 1, by omega, by rw [show r + (k + 1) = r + 1 + k by omega]; exact hsk⟩

theorem partsGo_no_success (env : WM.FundEnv)
    (hfail : ∀ p r, WM.attemptSuccess (env.outcome p r) = false) :
    ∀ left p remaining, (WM.partsGo env left p remaining).1 = [] := by
  intro left
  induction left with
  | zero => intro p remaining; rfl
  | succ n ih =>
    intro p remaining
    simp only [WM.partsGo]
    split_ifs with h hr
    · exact absurd hr (by simp [retryAttempts_false env p (hfail p) 3 0])
    · exact ih (p + 1) remaining
    · rfl

theorem fundSingleWallet_no_delivery (fundAmount : Nat) (env : WM.FundEnv)
    (s : WM.PoolState) (pubkey : String)
    (h1 : ∀ p r, env.outcome p r ≠ WM.AttemptOutcome.confirmed)
    (h2 : ∀ p r, env.outcome p r ≠
        WM.AttemptOutcome.confirmTimeout WM.VerifyResult.success) :
    (WM.fundSingleWallet fundAmount env s pubkey).transfers = [] := by
  have hfail : ∀ p r, WM.attemptSuccess (env.outcome p r) = false :=
    fun p r => attemptSuccess_false _ (h1 p r) (h2 p r)
  unfold WM.fundSingleWallet
  rcases hA : WM.acquireFundingLock s pubkey with ⟨b, s₁⟩
  cases b
  · rfl
  · cases hB : env.balanceResult with
    | none => rfl
    | some balance =>
      simp only []
      split_ifs with hth
      · rfl
      · have hp := partsGo_no_success env hfail env.parts 0 (fundAmount - balance)
        rcases hPG : WM.partsGo env env.parts 0 (fundAmount - balance) with ⟨ts, rem⟩
        rw [hPG] at hp
        simp only [hPG]
        exact hp

/-- Claim C4: after any sequence of `markBurnerUsed` calls a burner
wallet's lifetime transaction count never reaches the configured cap
without disposal having been scheduled (the lifetime invariant is
preserved by each call and by arbitrary call sequences), and
`getAvailableBurners` never returns a burner whose stored count has
reached the cap. -/
theorem claim_C4 :
    (∀ cfg s pk tx now, LifetimeInv cfg s →
        LifetimeInv cfg (BWC.markBurnerUsed cfg s pk tx now))
  ∧ (∀ cfg s (ops : List (String × Nat × Nat)), LifetimeInv cfg s →
        LifetimeInv cfg (ops.foldl
          (fun st o => BWC.markBurnerUsed cfg st o.1 o.2.1 o.2.2) s))
  ∧ (∀ cfg env s now count em,
        ∀ e ∈ (BWC.getAvailableBurners cfg env s now count em).1,
          e.txCount < cfg.bwcBurnerLifetimeTxs) := by
  refine ⟨markUsed_preserves, ?_, avail_txCount_lt⟩
  intro cfg s ops
  induction ops generalizing s with
  | nil => exact fun h => h
  | cons o rest ih =>
    intro h
    exact ih _ (markUsed_preserves cfg s o.1 o.2.1 o.2.2 h)

/-- Witness for claim C4 at a concrete state: marking wallet `A`
used 7 times (past the cap 5) preserves the invariant, and every
availability result respects the cap. -/
theorem claim_C4_witness :
    LifetimeInv cfgBwc (BWC.markBurnerUsed cfgBwc s7 "A" 7 1000)
  ∧ (∀ e ∈ (BWC.getAvailableBurners cfgBwc envB s7 100000 2 false).1,
      e.txCount < cfgBwc.bwcBurnerLifetimeTxs) := by
  exact ⟨claim_C4.1 cfgBwc s7 "A" 7 1000
      (fun pk h1 h2 => by simp [s7, cfgBwc, BWC.mgetD, BWC.mfind, List.find?] at h2),
    claim_C4.2.2 cfgBwc envB s7 100000 2 false⟩

/-- Claim C10: `getAvailableBurners` never returns a burner whose
identity is in the pending-disposal set (for any well-formed state,
whose map keys are unique as JavaScript `Map` guarantees). -/
theorem claim_C10 : ∀ cfg env s now count em pk,
    (s.burnerWallets.map Prod.fst).Nodup →
    pk ∈ s.pendingDisposal →
    ∀ e ∈ (BWC.getAvailableBurners cfg env s now count em).1, e.pubkey ≠ pk :=
  fun cfg env s now count em pk hnd hpend =>
    notin_avail_of_pending cfg env s now count em pk hnd hpend

/-- Witness for claim C10: with wallet `A` pending disposal, the
concrete burner returned by the availability query (wallet `B`) is not
`A`. -/
theorem claim_C10_witness :
    (BWC.AvailEntry.mk "B" 0 0 true).pubkey ≠ "A" := by
  have h1 : (BWC.getAvailableBurners cfgBwc envB s10 100000 2 false).1 =
      List.take (min (BWC.requestCap 2 1) 2) [⟨"B", 0, 0, true⟩] := rfl
  have hcap : BWC.requestCap 2 1 = 2 := by
    unfold BWC.requestCap
    rw [show (⌈((2 : Nat) : ℚ) * (1 : ℚ)⌉) = 2 by norm_num]
    rfl
  apply claim_C10 cfgBwc envB s10 100000 2 false "A" (by decide) (by decide)
  rw [h1, hcap]
  decide

/-- Claim C7 (code behaviour at the failing input): the source calls
`shuffleArray(available)` but discards the returned shuffled copy, so
`getAvailableBurners` returns the eligible burners in map insertion
order — here always `[A, B]` — while the Fisher-Yates shuffle the code
computes and drops would have produced `[B, A]` for a swapping random
draw; the request cap evaluates to 2 as specified. -/
theorem claim_C7_code :
    ((BWC.getAvailableBurners cfgBwc envB s7 100000 2 false).1 =
      List.take (min (BWC.requestCap 2 1) 2)
        [⟨"A", 0, 0, true⟩, ⟨"B", 0, 0, true⟩])
  ∧ BWC.requestCap 2 1 = 2
  ∧ ((BWC.getAvailableBurners cfgBwc envB s7 100000 2 false).1.map
        BWC.AvailEntry.pubkey = ["A", "B"])
  ∧ BWC.shuffleArray (fun _ => 0) ["A", "B"] = ["B", "A"] := by
  have hcap : BWC.requestCap 2 1 = 2 := by
    unfold BWC.requestCap
    rw [show (⌈((2 : Nat) : ℚ) * (1 : ℚ)⌉) = 2 by norm_num]
    rfl
  have h1 : (BWC.getAvailableBurners cfgBwc envB s7 100000 2 false).1 =
      List.take (min (BWC.requestCap 2 1) 2)
        [⟨"A", 0, 0, true⟩, ⟨"B", 0, 0, true⟩] := rfl
  refine ⟨h1, hcap, ?_, by decide⟩
  rw [h1, hcap]
  decide

/-- Claim C6 as amended: in `WalletManager.fundSingleWallet` no
tranche is counted delivered without either an explicit confirmation
or a successful balance-delta verification (an all-timeout run with
contradicted or indeterminate verification delivers nothing, and a
successful retry loop always contains a confirmed or
timeout-verified-successful attempt); in
`BurnerWalletManager.fundBurnerWallet`, however, the reported funding
status is independent of the confirmation outcome — a timeout is
treated exactly like a confirmation, with no verification step. -/
theorem claim_C6_amended :
    (∀ fundAmount env s pubkey,
      (∀ p r, env.outcome p r ≠ WM.AttemptOutcome.confirmed) →
      (∀ p r, env.outcome p r ≠
          WM.AttemptOutcome.confirmTimeout WM.VerifyResult.success) →
      (WM.fundSingleWallet fundAmount env s pubkey).transfers = [])
  ∧ (∀ env p, WM.retryAttempts env p 0 3 = true →
      ∃ r, r < 3 ∧ (env.outcome p r = WM.AttemptOutcome.confirmed ∨
        env.outcome p r = WM.AttemptOutcome.confirmTimeout WM.VerifyResult.success))
  ∧ (∀ fundAmount (env : BWC.FundEnv),
      BWC.fundBurnerWallet fundAmount
          { env with confirmOutcome := BWC.ConfirmOutcome.timedOut } =
        BWC.fundBurnerWallet fundAmount
          { env with confirmOutcome := BWC.ConfirmOutcome.confirmed }) := by
  refine ⟨fundSingleWallet_no_delivery, ?_, fun _ _ => rfl⟩
  intro env p h
  rcases retryAttempts_exists env p 3 0 h with ⟨k, hk, hsk⟩
  exact ⟨k, by omega, attemptSuccess_true_cases _ (by simpa using hsk)⟩

/-- Counterexample to claim C6 as stated: burner funding whose
confirmation times out still returns `true` (counted delivered), while
the spec's verification-gated delivery rule yields `false` for a
contradicted or indeterminate verification. -/
theorem claim_C6_counterexample :
    BWC.fundBurnerWallet 1000000
        ⟨[some 1000000000], some 1000000000, true, BWC.ConfirmOutcome.timedOut⟩ = true
  ∧ BWC.verifiedDeliveryPerSpec BWC.ConfirmOutcome.timedOut
      BWC.DeltaVerification.contradicted = false
  ∧ BWC.verifiedDeliveryPerSpec BWC.ConfirmOutcome.timedOut
      BWC.DeltaVerification.indeterminate = false := by
  refine ⟨?_, rfl, rfl⟩
  decide

/-- Witness for claim C6 (amended): a funding run whose every
attempt fails at send delivers no tranche. -/
theorem claim_C6_witness :
    (WM.fundSingleWallet 100 envC2 ⟨[], []⟩ "w").transfers = [] := by
  exact claim_C6_amended.1 100 envC2 ⟨[], []⟩ "w"
    (fun p r h => by simp [envC2] at h) (fun p r h => by simp [envC2] at h)

theorem p2pStep_transfer_sound (cfg : RB.Config) (ok : Bool)
    (master : List (String × Int)) (sIdx nIdx : Nat) (t : RB.Transfer)
    (h : (RB.p2pStep cfg ok master sIdx nIdx).transfer = some t) :
    ∃ pr, (RB.p2pStep cfg ok master sIdx nIdx).pairing = some pr ∧
      t.src = pr.donor ∧ t.dst = pr.needy ∧ pr.needy ≠ pr.donor ∧
      t.amount = cfg.targetWalletBalanceLamports - pr.needyBalance ∧
      0 ≤ t.amount ∧
      t.amount < pr.donorBalance - cfg.targetWalletBalanceLamports := by
  simp only [RB.p2pStep, List.getD, List.get?_eq_getElem?] at h ⊢
  split_ifs at h ⊢ with hself hsucc
  all_goals try simp at h
  all_goals subst h
  all_goals
    exact ⟨_, rfl, rfl, rfl, fun hEq => hself hEq.symm, rfl, hsucc.2.1, hsucc.1⟩

theorem p2pGo_transfers_sound (cfg : RB.Config) (env : RB.Env)
    (surplusIdxs : List Nat) :
    ∀ (needyIdxs : List Nat) (master : List (String × Int)) (si pos : Nat),
      ∀ t ∈ (RB.p2pGo cfg env surplusIdxs needyIdxs master si pos).2.2,
        ∃ pr ∈ (RB.p2pGo cfg env surplusIdxs needyIdxs master si pos).2.1,
          t.src = pr.donor ∧ t.dst = pr.needy ∧ pr.needy ≠ pr.donor ∧
          t.amount = cfg.targetWalletBalanceLamports - pr.needyBalance ∧
          0 ≤ t.amount ∧
          t.amount < pr.donorBalance - cfg.targetWalletBalanceLamports := by
  intro needyIdxs
  induction needyIdxs with
  | nil => intro master si pos t ht; simp [RB.p2pGo] at ht
  | cons nIdx rest ih =>
    intro master si pos t ht
    simp only [RB.p2pGo] at ht ⊢
    split_ifs at ht ⊢ with hlen
    · simp at ht
    all_goals {
      rcases List.mem_append.mp ht with ht1 | ht1
      · simp only [Option.mem_toList, Option.mem_def] at ht1
        rcases p2pStep_transfer_sound cfg (env.p2pOk pos) master
          (surplusIdxs.getD si 0) nIdx t ht1 with ⟨pr, hpr, hprops⟩
        refine ⟨pr, List.mem_append_left _ ?_, hprops⟩
        simp only [Option.mem_toList, Option.mem_def]
        exact hpr
      · rcases ih _ _ _ t ht1 with ⟨pr, hpr, hprops⟩
        exact ⟨pr, List.mem_append_right _ hpr, hprops⟩ }

/-- Counterexample to claim C5 as stated: with needy deficit 8 and
donor surplus 6 the pairing is considered but no transfer occurs, so
the transferred amount does not equal `min(deficit, surplus) = 6`. -/
theorem claim_C5_counterexample :
    ((RB.rebalanceWallets cfg5 env5 wallets5 none).pairings =
        [⟨"N", "D", 2, 16⟩])
  ∧ ((RB.rebalanceWallets cfg5 env5 wallets5 none).p2pTransfers = [])
  ∧ ¬ (∀ p ∈ (RB.rebalanceWallets cfg5 env5 wallets5 none).pairings,
        ∃ t ∈ (RB.rebalanceWallets cfg5 env5 wallets5 none).p2pTransfers,
          t.src = p.donor ∧ t.dst = p.needy ∧
          t.amount = min (cfg5.targetWalletBalanceLamports - p.needyBalance)
            (p.donorBalance - cfg5.targetWalletBalanceLamports)) := by
  refine ⟨by decide, by decide, ?_⟩
  intro hall
  rcases hall ⟨"N", "D", 2, 16⟩ (by decide) with ⟨t, ht, _⟩
  rw [show (RB.rebalanceWallets cfg5 env5 wallets5 none).p2pTransfers = []
    from by decide] at ht
  simp at ht

/-- Claim C5 as amended: a P2P transfer occurs only when the donor
surplus strictly exceeds the needy deficit, and then transfers exactly
the deficit — which then equals `min(deficit, surplus)` and never
exceeds the donor surplus; a wallet is never paired with itself (every
transfer has distinct source and destination); and on a non-self
pairing the donor advances exactly when its post-pairing surplus has
fallen below the dust threshold (a self-pairing advances nothing). -/
theorem claim_C5_amended :
    (∀ cfg env wallets sink,
      ∀ t ∈ (RB.rebalanceWallets cfg env wallets sink).p2pTransfers,
        ∃ pr ∈ (RB.rebalanceWallets cfg env wallets sink).pairings,
          t.src = pr.donor ∧ t.dst = pr.needy ∧ pr.needy ≠ pr.donor ∧
          t.amount = cfg.targetWalletBalanceLamports - pr.needyBalance ∧
          t.amount = min (cfg.targetWalletBalanceLamports - pr.needyBalance)
            (pr.donorBalance - cfg.targetWalletBalanceLamports) ∧
          t.amount ≤ pr.donorBalance - cfg.targetWalletBalanceLamports)
  ∧ (∀ cfg ok master sIdx nIdx,
      ((master.getD sIdx ("", 0)).1 = (master.getD nIdx ("", 0)).1 →
        RB.p2pStep cfg ok master sIdx nIdx = ⟨master, none, none, false⟩)
      ∧ ((master.getD sIdx ("", 0)).1 ≠ (master.getD nIdx ("", 0)).1 →
        ((RB.p2pStep cfg ok master sIdx nIdx).advance = true ↔
          ((RB.p2pStep cfg ok master sIdx nIdx).master.getD sIdx ("", 0)).2 -
              cfg.targetWalletBalanceLamports < cfg.dustThresholdLamports))) := by
  constructor
  · intro cfg env wallets sink t ht
    simp only [RB.rebalanceWallets] at ht ⊢
    split_ifs at ht ⊢ with h1 h2 h3
    all_goals first
      | exact absurd ht (List.not_mem_nil t)
      | { rcases p2pGo_transfers_sound cfg env _ _ _ _ _ t ht with
            ⟨pr, hpr, hp1, hp2, hp3, hp4, hp5, hp6⟩
          refine ⟨pr, hpr, hp1, hp2, hp3, hp4, ?_, le_of_lt hp6⟩
          rw [← hp4]
          exact (min_eq_left (le_of_lt hp6)).symm }
  · intro cfg ok master sIdx nIdx
    constructor
    · intro hself
      simp only [RB.p2pStep]
      rw [if_pos hself]
    · intro hself
      simp only [RB.p2pStep]
      rw [if_neg hself]
      simp

/-- Witness for claim C5 (amended): the concrete run with donor
balance 30 produces the transfer of the full deficit 8 with all the
stated properties. -/
theorem claim_C5_witness :
    ∃ pr ∈ (RB.rebalanceWallets cfg5 env5 wallets5b none).pairings,
      (RB.Transfer.mk "D" "N" 8).src = pr.donor ∧
      (RB.Transfer.mk "D" "N" 8).dst = pr.needy ∧ pr.needy ≠ pr.donor ∧
      (RB.Transfer.mk "D" "N" 8).amount =
        cfg5.targetWalletBalanceLamports - pr.needyBalance ∧
      (RB.Transfer.mk "D" "N" 8).amount =
        min (cfg5.targetWalletBalanceLamports - pr.needyBalance)
          (pr.donorBalance - cfg5.targetWalletBalanceLamports) ∧
      (RB.Transfer.mk "D" "N" 8).amount ≤
        pr.donorBalance - cfg5.targetWalletBalanceLamports := by
  exact claim_C5_amended.1 cfg5 env5 wallets5b none ⟨"D", "N", 8⟩ (by decide)

theorem mem_insertBy {α : Type} (le : α → α → Bool) (x y : α) (l : List α) :
    y ∈ RB.insertBy le x l ↔ y = x ∨ y ∈ l := by
  induction l with
  | nil => simp [RB.insertBy]
  | cons z zs ih =>
    simp only [RB.insertBy]
    split_ifs with h
    · simp [List.mem_cons]
    · simp only [List.mem_cons, ih]
      tauto

theorem mem_sortBy {α : Type} (le : α → α → Bool) (x : α) (l : List α) :
    x ∈ RB.sortBy le l ↔ x ∈ l := by
  induction l with
  | nil => simp [RB.sortBy]
  | cons z zs ih =>
    simp only [RB.sortBy, List.foldr_cons] at ih ⊢
    rw [mem_insertBy, ih, List.mem_cons]

theorem p2pStep_master_length (cfg : RB.Config) (ok : Bool)
    (master : List (String × Int)) (sIdx nIdx : Nat) :
    (RB.p2pStep cfg ok master sIdx nIdx).master.length = master.length := by
  simp only [RB.p2pStep]
  split_ifs <;> simp

theorem p2pGo_master_length (cfg : RB.Config) (env : RB.Env)
    (surplusIdxs : List Nat) :
    ∀ (needyIdxs : List Nat) (master : List (String × Int)) (si pos : Nat),
      (RB.p2pGo cfg env surplusIdxs needyIdxs master si pos).1.length =
        master.length := by
  intro needyIdxs
  induction needyIdxs with
  | nil => intro master si pos; rfl
  | cons nIdx rest ih =>
    intro master si pos
    simp only [RB.p2pGo]
    split_ifs with hlen
    · rfl
    all_goals rw [ih, p2pStep_master_length]

theorem getD_mem {α : Type} (l : List α) (i : Nat) (d : α) (h : i < l.length) :
    l.getD i d ∈ l := by
  rw [List.getD_eq_getElem l d h]
  exact List.getElem_mem h

theorem floorK_bounds (r : ℚ) (h0 : 0 ≤ r) (h1 : r < 1) :
    (90 : Int) ≤ ⌊(90 : ℚ) + 8 * r⌋ ∧ ⌊(90 : ℚ) + 8 * r⌋ ≤ 97 := by
  constructor
  · exact Int.le_floor.mpr (by push_cast; linarith)
  · have := Int.floor_lt.mpr (show (90 : ℚ) + 8 * r < ((98 : ℤ) : ℚ) by
      push_cast; linarith)
    omega

theorem consAmount_bounds (cfg : RB.Config) (surplus k : Int)
    (hd : 0 ≤ cfg.dustThresholdLamports)
    (hsur : cfg.dustThresholdLamports < surplus)
    (hk0 : 90 ≤ k) (hk1 : k ≤ 97) :
    Int.tdiv (surplus * k) 100 ≤ surplus ∧
      100 * (surplus - Int.tdiv (surplus * k) 100) ≤ 10 * surplus + 99 := by
  have hs0 : 0 ≤ surplus := le_trans hd (le_of_lt hsur)
  have hsk : 0 ≤ surplus * k := mul_nonneg hs0 (by omega)
  rw [Int.tdiv_eq_ediv hsk (by norm_num)]
  constructor
  · calc surplus * k / 100 ≤ surplus * 100 / 100 :=
          Int.ediv_le_ediv (by norm_num) (by nlinarith)
    _ = surplus := Int.mul_ediv_cancel surplus (by norm_num)
  · have hlow : surplus * 90 / 100 ≤ surplus * k / 100 :=
      Int.ediv_le_ediv (by norm_num) (by nlinarith)
    have heq : 100 * (surplus * 90 / 100) + surplus * 90 % 100 = surplus * 90 :=
      Int.ediv_add_emod (surplus * 90) 100
    have hm0 : 0 ≤ surplus * 90 % 100 := Int.emod_nonneg _ (by norm_num)
    have hm1 : surplus * 90 % 100 < 100 := Int.emod_lt_of_pos _ (by norm_num)
    omega

theorem consolidateGo_sound (cfg : RB.Config) (env : RB.Env) (sink : String)
    (hr : ∀ i, 0 ≤ env.rand i ∧ env.rand i < 1)
    (hd : 0 ≤ cfg.dustThresholdLamports) :
    ∀ (entries : List (String × Int)) (i0 : Nat),
      ∀ t ∈ RB.consolidateGo cfg env sink entries i0,
        ∃ pb ∈ entries, t.src = pb.1 ∧ t.dst = sink ∧
          cfg.dustThresholdLamports < pb.2 - cfg.targetWalletBalanceLamports ∧
          cfg.dustThresholdLamports ≤ t.amount ∧
          t.amount ≤ pb.2 - cfg.targetWalletBalanceLamports ∧
          100 * ((pb.2 - cfg.targetWalletBalanceLamports) - t.amount) ≤
            10 * (pb.2 - cfg.targetWalletBalanceLamports) + 99 := by
  intro entries
  induction entries with
  | nil => intro i0 t ht; simp [RB.consolidateGo] at ht
  | cons e rest ih =>
    rcases e with ⟨pk, bal⟩
    intro i0 t ht
    simp only [RB.consolidateGo] at ht
    rcases List.mem_append.mp ht with ht1 | ht1
    · split_ifs at ht1 with hsur hamt hok
      · simp at ht1
      · simp only [List.mem_singleton] at ht1
        subst ht1
        rcases floorK_bounds (env.rand i0) (hr i0).1 (hr i0).2 with ⟨hk0, hk1⟩
        rcases consAmount_bounds cfg (bal - cfg.targetWalletBalanceLamports)
          ⌊(90 : ℚ) + 8 * env.rand i0⌋ hd hsur hk0 hk1 with ⟨hb1, hb2⟩
        exact ⟨(pk, bal), List.mem_cons_self _ _, rfl, rfl, hsur,
          not_lt.mp hamt, hb1, hb2⟩
      · simp at ht1
      · simp at ht1
    · rcases ih (i0 + 1) t ht1 with ⟨pb, hpb, hprops⟩
      exact ⟨pb, List.mem_cons_of_mem _ hpb, hprops⟩

theorem consolidateGo_complete (cfg : RB.Config) (env : RB.Env) (sink : String) :
    ∀ (entries : List (String × Int)) (i0 j : Nat) (pk : String) (bal : Int),
      entries.get? j = some (pk, bal) →
      env.consOk (i0 + j) = true →
      cfg.dustThresholdLamports < bal - cfg.targetWalletBalanceLamports →
      cfg.dustThresholdLamports ≤
        Int.tdiv ((bal - cfg.targetWalletBalanceLamports) *
          ⌊(90 : ℚ) + 8 * env.rand (i0 + j)⌋) 100 →
      RB.Transfer.mk pk sink
          (Int.tdiv ((bal - cfg.targetWalletBalanceLamports) *
            ⌊(90 : ℚ) + 8 * env.rand (i0 + j)⌋) 100) ∈
        RB.consolidateGo cfg env sink entries i0 := by
  intro entries
  induction entries with
  | nil => intro i0 j pk bal h; simp at h
  | cons e rest ih =>
    rcases e with ⟨pk', bal'⟩
    intro i0 j pk bal hget hok hsur hamt
    cases j with
    | zero =>
      simp only [List.get?_cons_zero, Option.some.injEq] at hget
      rcases Prod.mk.injEq .. ▸ hget with ⟨hpk, hbal⟩
      subst hpk
      subst hbal
      simp only [Nat.add_zero] at hok hsur hamt ⊢
      simp only [RB.consolidateGo]
      apply List.mem_append_left
      rw [if_pos hsur, if_neg (not_lt.mpr hamt), if_pos hok]
      exact List.mem_singleton_self _
    | succ j' =>
      simp only [List.get?_cons_succ] at hget
      have harith : i0 + (j' + 1) = (i0 + 1) + j' := by omega
      rw [harith] at hok hamt ⊢
      simp only [RB.consolidateGo]
      exact List.mem_append_right _ (ih (i0 + 1) j' pk bal hget hok hsur hamt)

/-- Claim C9: every consolidation transfer produced by
`rebalanceWallets` goes to the configured sink from a surplus wallet
whose post-pairing balance exceeds `target * 11 / 10`, its amount is
at least the dust threshold (sub-dust transfers are skipped) and at
most the excess above target, and the retained portion is at most 10%
of the excess up to one-lamport rounding
(`100 * retention ≤ 10 * surplus + 99`); conversely every surplus
entry whose excess and scaled amount clear the dust threshold has its
transfer in the `consolidateSurplusToSink` result. -/
theorem claim_C9 :
    (∀ cfg env wallets sink,
      (∀ i, 0 ≤ env.rand i ∧ env.rand i < 1) →
      0 ≤ cfg.dustThresholdLamports →
      ∀ t ∈ (RB.rebalanceWallets cfg env wallets sink).consolidationTransfers,
        ∃ pb ∈ (RB.rebalanceWallets cfg env wallets sink).balancesAfterP2P,
          sink = some t.dst ∧ t.src = pb.1 ∧
          Int.tdiv (cfg.targetWalletBalanceLamports * 11) 10 < pb.2 ∧
          cfg.dustThresholdLamports < pb.2 - cfg.targetWalletBalanceLamports ∧
          cfg.dustThresholdLamports ≤ t.amount ∧
          t.amount ≤ pb.2 - cfg.targetWalletBalanceLamports ∧
          100 * ((pb.2 - cfg.targetWalletBalanceLamports) - t.amount) ≤
            10 * (pb.2 - cfg.targetWalletBalanceLamports) + 99)
  ∧ (∀ cfg env sink entries (j : Nat) pk (bal : Int),
      entries.get? j = some (pk, bal) →
      env.consOk j = true →
      cfg.dustThresholdLamports < bal - cfg.targetWalletBalanceLamports →
      cfg.dustThresholdLamports ≤
        Int.tdiv ((bal - cfg.targetWalletBalanceLamports) *
          ⌊(90 : ℚ) + 8 * env.rand j⌋) 100 →
      RB.Transfer.mk pk sink
          (Int.tdiv ((bal - cfg.targetWalletBalanceLamports) *
            ⌊(90 : ℚ) + 8 * env.rand j⌋) 100) ∈
        RB.consolidateSurplusToSink cfg env sink entries) := by
  constructor
  · intro cfg env wallets sink hr hd t ht
    rcases sink with _ | s
    · simp only [RB.rebalanceWallets] at ht
      split_ifs at ht <;> exact absurd ht (List.not_mem_nil t)
    · simp only [RB.rebalanceWallets] at ht ⊢
      split_ifs at ht ⊢
      all_goals first
        | exact absurd ht (List.not_mem_nil t)
        | { rcases consolidateGo_sound cfg env s hr hd _ _ t ht with
              ⟨pb, hpb, hsrc, hdst, hsur, hlo, hhi, hret⟩
            rcases List.mem_map.mp hpb with ⟨i, hifil, hpbEq⟩
            rcases List.mem_filter.mp hifil with ⟨hisurp, hcond⟩
            have hi1 := (mem_sortBy _ i _).mp hisurp
            have hi2 := (List.mem_filter.mp hi1).1
            have hirange := List.mem_range.mp hi2
            simp only [decide_eq_true_eq] at hcond
            rw [hpbEq] at hcond
            refine ⟨pb, ?_, by rw [hdst], hsrc, hcond, hsur, hlo, hhi, hret⟩
            rw [← hpbEq]
            apply getD_mem
            first
              | (rw [p2pGo_master_length]; exact hirange)
              | exact hirange }
  · intro cfg env sink entries j pk bal hget hok hsur hamt
    have h0 : (0 : Nat) + j = j := by omega
    rw [← h0] at hok hamt ⊢
    exact consolidateGo_complete cfg env sink entries 0 j pk bal hget hok hsur hamt

/-- Witness for claim C9: a wallet at balance 30 against target 10
consolidates `tdiv (20 * 90) 100 = 18` lamports to the sink. -/
theorem claim_C9_witness :
    RB.Transfer.mk "W" "S"
        (Int.tdiv (((30 : Int) - cfg5.targetWalletBalanceLamports) *
          ⌊(90 : ℚ) + 8 * env5.rand 0⌋) 100) ∈
      RB.consolidateSurplusToSink cfg5 env5 "S" [("W", 30)] := by
  have hk : ⌊(90 : ℚ) + 8 * env5.rand 0⌋ = 90 := by norm_num [env5]
  apply claim_C9.2 cfg5 env5 "S" [("W", 30)] 0 "W" 30 rfl rfl (by decide)
  rw [hk]
  decide
